import Mathlib

/-!
Verification of the HTR-United metadata generator (humg.py).

The program extracts line / region / character statistics from ALTO-4 and
PAGE-2019 XML files and aggregates them over a corpus.  Text is modelled as
`List Char` (Python `str`), Python `collections.Counter` as an association
list from keys to positive counts built in insertion order, and the XML
documents as records holding exactly the data the extraction code reads.
-/

set_option maxRecDepth 4000

/-- Python strings are modelled as lists of characters. -/
abbrev Str := List Char

/-- Coerce a Lean string literal into the `Str` model. -/
def str (s : String) : Str := s.toList

/-- The whitespace characters stripped by Python `str.strip()`
    (ASCII whitespace; the attribute values at hand contain no exotic
    Unicode whitespace). -/
def isPySpace (c : Char) : Bool :=
  c = ' ' || c = '\t' || c = '\n' || c = '\r' || c = '\x0b' || c = '\x0c'

/-- Python `str.strip()`: drop leading and trailing whitespace. -/
def pyStrip (s : Str) : Str :=
  ((s.dropWhile isPySpace).reverse.dropWhile isPySpace).reverse

/-- Whether the pattern `p` occurs as a contiguous substring of `s`. -/
def occursIn (p : Str) : Str → Bool
  | [] => p.isEmpty
  | c :: rest => p.isPrefixOf (c :: rest) || occursIn p rest

/-- Fuel-indexed worker for Python `str.replace(pat, "")` with a non-empty
    pattern `p :: ps`: scan left to right, removing each non-overlapping
    occurrence.  With `fuel = s.length` the fuel never runs out. -/
def pyReplaceAllAux (p : Char) (ps : Str) : Nat → Str → Str
  | _, [] => []
  | 0, s => s
  | fuel + 1, c :: rest =>
    if (p :: ps).isPrefixOf (c :: rest) then
      pyReplaceAllAux p ps fuel (List.drop ps.length rest)
    else
      c :: pyReplaceAllAux p ps fuel rest

/-- Python `value.replace(pat, "")`.  (The program only ever uses non-empty
    patterns, so the `[]` case is unreachable there.) -/
def pyReplace (pat s : Str) : Str :=
  match pat with
  | [] => s
  | p :: ps => pyReplaceAllAux p ps s.length s

/-- Python `value.replace(" ", "")`: remove every space character. -/
def removeSpaces : Str → Str
  | [] => []
  | c :: rest => if c = ' ' then removeSpaces rest else c :: removeSpaces rest

/-- The fixed leading delimiter of an eScriptorium `custom` attribute. -/
def structTypePat : Str := str "structure \x7btype:"

/-- The fixed trailing delimiter of an eScriptorium `custom` attribute. -/
def closeTypePat : Str := str ";\x7d"

/-- The label used when no segment type can be resolved
    (`UNKNOWN_SEGMENT_TYPE = "Not specified"`). -/
def UNKNOWN_SEGMENT_TYPE : Str := str "Not specified"

/-- `Page2019Parser._handle_custom_type`:
    `value.replace("structure {type:", "").replace(";}", "").strip()`. -/
def Page2019Parser.handle_custom_type (value : Str) : Str :=
  pyStrip (pyReplace closeTypePat (pyReplace structTypePat value))

/-- The label computed inline by `Page2019Parser.get_lines` / `get_regions`
    for one element:
    `self._handle_custom_type(line.attrib.get("custom", UNKNOWN_SEGMENT_TYPE))`.
    `none` models an element without a `custom` attribute. -/
def Page2019Parser.customLabel (custom : Option Str) : Str :=
  Page2019Parser.handle_custom_type (custom.getD UNKNOWN_SEGMENT_TYPE)

/-- A Python `collections.Counter` (and more generally a FrequencyMap):
    an association list from keys to counts, in key insertion order. -/
abbrev FreqMap (α : Type) := List (α × Nat)

/-- A `collections.defaultdict(Counter)` keyed by directory name. -/
abbrev GroupMap (α : Type) := List (Str × FreqMap α)

/-- `m[k] += n`, inserting the key at the end if it is absent
    (Python dict insertion-order semantics). -/
def addCount {α : Type} [DecidableEq α] (m : FreqMap α) (k : α) (n : Nat) : FreqMap α :=
  match m with
  | [] => [(k, n)]
  | (k0, c) :: rest => if k0 = k then (k0, c + n) :: rest else (k0, c) :: addCount rest k n

/-- `collections.Counter(l)`: count the occurrences of each element of `l`,
    keys in first-occurrence order. -/
def counterOf {α : Type} [DecidableEq α] (l : List α) : FreqMap α :=
  l.foldl (fun m k => addCount m k 1) []

/-- `Counter.update`: per-key addition of the counter `d` into `m`
    (missing keys treated as zero). -/
def counterUpdate {α : Type} [DecidableEq α] (m d : FreqMap α) : FreqMap α :=
  d.foldl (fun acc kc => addCount acc kc.1 kc.2) m

/-- The count stored for key `k` (`0` when the key is absent). -/
def countOf {α : Type} [DecidableEq α] : FreqMap α → α → Nat
  | [], _ => 0
  | (k0, c) :: rest, k => if k0 = k then c else countOf rest k

/-- Sum of the entries of `d` whose key is `k` (used to reason about
    `counterUpdate`). -/
def entrySum {α : Type} [DecidableEq α] : FreqMap α → α → Nat
  | [], _ => 0
  | (k0, c) :: rest, k => (if k0 = k then c else 0) + entrySum rest k

/-- `sum(counter.values())`. -/
def sumVals {α : Type} : FreqMap α → Nat
  | [] => 0
  | (_, c) :: rest => c + sumVals rest

/-- Number of occurrences of `k` in the list `l`. -/
def countElem {α : Type} [DecidableEq α] : List α → α → Nat
  | [], _ => 0
  | x :: rest, k => (if x = k then 1 else 0) + countElem rest k

/-- Every stored count is strictly positive (absent keys are absent,
    not zero entries). -/
def allPos {α : Type} (m : FreqMap α) : Prop := ∀ p ∈ m, 0 < p.2

/-- `group[dir].update(m)` on a `defaultdict(Counter)`: create an empty
    counter for a fresh directory, then add `m` into it. -/
def groupUpdate {α : Type} [DecidableEq α] (g : GroupMap α) (dir : Str) (m : FreqMap α) : GroupMap α :=
  match g with
  | [] => [(dir, counterUpdate [] m)]
  | (d0, c0) :: rest =>
    if d0 = dir then (d0, counterUpdate c0 m) :: rest else (d0, c0) :: groupUpdate rest dir m

/-- The counter stored for directory `dir` (empty when absent). -/
def groupGet {α : Type} : GroupMap α → Str → FreqMap α
  | [], _ => []
  | (d0, c0) :: rest, dir => if d0 = dir then c0 else groupGet rest dir

/-- Every counter in the group map satisfies `allPos`. -/
def groupPos {α : Type} (g : GroupMap α) : Prop := ∀ p ∈ g, allPos p.2

/-- A string-valued Python dict (attribute map / label table),
    as an association list in insertion order. -/
abbrev StrDict := List (Str × Str)

/-- `d[k] = v`: overwrite in place, or append a fresh key. -/
def dictUpsert (m : StrDict) (k v : Str) : StrDict :=
  match m with
  | [] => [(k, v)]
  | (k0, v0) :: rest => if k0 = k then (k0, v) :: rest else (k0, v0) :: dictUpsert rest k v

/-- `d.get(k)`: first (unique) binding of `k`, if any. -/
def dictGet : StrDict → Str → Option Str
  | [], _ => none
  | (k0, v0) :: rest, k => if k0 = k then some v0 else dictGet rest k

/-- One `//a:OtherTag` element of an ALTO document, as its attribute map. -/
abbrev AttrMap := StrDict

/-- The data of a well-formed ALTO-4 XML file that `Alto4Parser` reads:
    the attribute maps of the `//a:OtherTag` nodes (document order), the
    optional `TAGREFS` attribute of each `//a:TextLine` and `//a:TextBlock`,
    and the `//a:TextLine/a:String/@CONTENT` strings (document order). -/
structure RawAltoDoc where
  otherTags : List AttrMap
  textLines : List (Option Str)
  contents : List Str
  textBlocks : List (Option Str)
deriving DecidableEq

/-- One `//{*}TextLine/{*}TextEquiv/{*}Unicode` element of a PAGE document:
    its text content, and the memory address printed by the lxml element
    repr (`id(elem)` in hexadecimal). -/
structure PageUnicodeElem where
  text : Str
  addr : Str
deriving DecidableEq

/-- The data of a well-formed PAGE-2019 XML file that `Page2019Parser`
    reads: the optional `custom` attribute of each `//{*}TextLine` and
    `//{*}TextRegion`, and the `Unicode` elements. -/
structure PageDoc where
  textLines : List (Option Str)
  unicodeElems : List PageUnicodeElem
  textRegions : List (Option Str)
deriving DecidableEq

/-- The errors the processing loop can stop with: `etree.parse` raising on
    a file that is not well-formed XML, and `node.attrib[k]` raising
    `KeyError(k)` on a missing attribute. -/
inductive ParseError where
  | malformedDocument
  | keyError (k : Str)
deriving DecidableEq

/-- `str(elem)` for an lxml element found by `findall`: lxml `_Element` has
    no `__str__`, so Python falls back to
    `repr(elem) = "<Element %s at 0x%x>" % (elem.tag, id(elem))`
    with the namespaced tag of the PAGE `Unicode` element. -/
def lxmlElementRepr (e : PageUnicodeElem) : Str :=
  str "<Element \x7bhttp://schema.primaresearch.org/PAGE/gts/pagecontent/2019-07-15\x7dUnicode at 0x"
    ++ e.addr ++ str ">"

/-- The dict comprehension in `Alto4Parser.parse`:
    `{node.attrib["ID"]: node.attrib["LABEL"] for node in //a:OtherTag}`.
    A missing attribute raises `KeyError` (key evaluated before value). -/
def Alto4Parser.buildLabels (acc : StrDict) : List AttrMap → Except ParseError StrDict
  | [] => .ok acc
  | attrs :: rest =>
    match dictGet attrs (str "ID") with
    | none => .error (.keyError (str "ID"))
    | some i =>
      match dictGet attrs (str "LABEL") with
      | none => .error (.keyError (str "LABEL"))
      | some l => Alto4Parser.buildLabels (dictUpsert acc i l) rest

/-- `Alto4Parser.parse`: `etree.parse` (failing on a file that is not
    well-formed XML, modelled by `none`), then the label-table comprehension.
    Returns the table stored in `self._labels` together with the document. -/
def Alto4Parser.parse (src : Option RawAltoDoc) : Except ParseError (StrDict × RawAltoDoc) :=
  match src with
  | none => .error .malformedDocument
  | some raw =>
    match Alto4Parser.buildLabels [] raw.otherTags with
    | .error e => .error e
    | .ok labels => .ok (labels, raw)

/-- The per-element resolution in `Alto4Parser.get_lines` / `get_regions`:
    `self._labels.get(line.attrib.get("TAGREFS", "####"), UNKNOWN_SEGMENT_TYPE)`. -/
def Alto4Parser.resolveLabel (labels : StrDict) (tagrefs : Option Str) : Str :=
  (dictGet labels (tagrefs.getD (str "####"))).getD UNKNOWN_SEGMENT_TYPE

/-- `Alto4Parser.get_lines`: one resolved label per `//a:TextLine`,
    counted. -/
def Alto4Parser.get_lines (labels : StrDict) (doc : RawAltoDoc) : FreqMap Str :=
  counterOf (doc.textLines.map (Alto4Parser.resolveLabel labels))

/-- `Alto4Parser.get_regions`: same resolution over `//a:TextBlock`. -/
def Alto4Parser.get_regions (labels : StrDict) (doc : RawAltoDoc) : FreqMap Str :=
  counterOf (doc.textBlocks.map (Alto4Parser.resolveLabel labels))

/-- `Alto4Parser.get_chars`:
    `Counter("".join([self.normalize(str(c)) for c in @CONTENT]).replace(" ", ""))`.
    `nrm` is the run's `self.normalize` (see `Parser.normalize` below). -/
def Alto4Parser.get_chars (nrm : Str → Str) (doc : RawAltoDoc) : FreqMap Char :=
  counterOf (removeSpaces (doc.contents.map nrm).flatten)

/-- `Page2019Parser.get_lines`: the `custom`-derived label per
    `//{*}TextLine`, counted. -/
def Page2019Parser.get_lines (doc : PageDoc) : FreqMap Str :=
  counterOf (doc.textLines.map Page2019Parser.customLabel)

/-- `Page2019Parser.get_regions`: same over `//{*}TextRegion`. -/
def Page2019Parser.get_regions (doc : PageDoc) : FreqMap Str :=
  counterOf (doc.textRegions.map Page2019Parser.customLabel)

/-- `Page2019Parser.get_chars`:
    `Counter("".join([self.normalize(str(line)) for line in findall(...)]).replace(" ", ""))`
    where `line` is an lxml element, so `str(line)` is `lxmlElementRepr`. -/
def Page2019Parser.get_chars (nrm : Str → Str) (doc : PageDoc) : FreqMap Char :=
  counterOf (removeSpaces (doc.unicodeElems.map (fun e => nrm (lxmlElementRepr e))).flatten)

/-- The `--normalization` selector: one of the four canonical Unicode
    normalization forms. -/
inductive NormForm where
  | NFC | NFKC | NFD | NFKD
deriving DecidableEq

/-- Modelled from the spec: `unicodedata.normalize(form, s)` is external
    library code, "returning the canonically normalized string".  A
    canonical-normalization implementation is modelled by its contract:
    a projection onto normal-form strings, hence idempotent (Unicode
    Standard Annex #15). -/
structure UnicodeNormalization where
  apply : Str → Str
  idem : ∀ s, apply (apply s) = apply s

/-- `Parser.normalize`: `normalize(self._normalization, string)` when a
    normalization form is configured, the string itself otherwise.
    `impl` is the library's table of normalization functions. -/
def Parser.normalize (impl : NormForm → UnicodeNormalization) (normalization : Option NormForm) (s : Str) : Str :=
  match normalization with
  | some form => (impl form).apply s
  | none => s

/-- The identity implementation of the normalization contract (used to
    instantiate theorems at concrete inputs). -/
def idNormalization : UnicodeNormalization :=
  { apply := fun s => s, idem := fun _ => rfl }

/-- Decidable equality on `Except`, so that concrete parse results can be
    checked by `decide`. -/
instance {ε α : Type} [DecidableEq ε] [DecidableEq α] : DecidableEq (Except ε α) :=
  fun a b =>
    match a, b with
    | .ok x, .ok y =>
      if h : x = y then .isTrue (by rw [h]) else .isFalse (by intro he; cases he; exact h rfl)
    | .error x, .error y =>
      if h : x = y then .isTrue (by rw [h]) else .isFalse (by intro he; cases he; exact h rfl)
    | .ok _, .error _ => .isFalse (by intro h; cases h)
    | .error _, .ok _ => .isFalse (by intro h; cases h)

/-- The triple `(lines, chars, regions)` a parser extracts from one file. -/
abbrev ExtractTriple := FreqMap Str × FreqMap Char × FreqMap Str

/-- Lines 194-195 of `run` for the ALTO parser: `parser.parse(file_name)`
    then `parser.get_lines(xml), parser.get_chars(xml), parser.get_regions(xml)`. -/
def Alto4Parser.parseExtract (nrm : Str → Str) (src : Option RawAltoDoc) : Except ParseError ExtractTriple :=
  match Alto4Parser.parse src with
  | .error e => .error e
  | .ok (labels, doc) =>
    .ok (Alto4Parser.get_lines labels doc, Alto4Parser.get_chars nrm doc,
      Alto4Parser.get_regions labels doc)

/-- `Page2019Parser.parse` is `etree.parse` alone, so lines 194-195 of
    `run` for the PAGE parser only fail on a file that is not well-formed
    XML. -/
def Page2019Parser.parseExtract (nrm : Str → Str) (src : Option PageDoc) : Except ParseError ExtractTriple :=
  match src with
  | none => .error .malformedDocument
  | some doc =>
    .ok (Page2019Parser.get_lines doc, Page2019Parser.get_chars nrm doc,
      Page2019Parser.get_regions doc)

/-- One input file of `run`: its directory (`os.path.dirname`) and its
    source, consumed by the run's parser (`σ` is the parser's source type:
    `Option RawAltoDoc` or `Option PageDoc`). -/
structure FileInput (σ : Type) where
  dirname : Str
  source : σ

/-- The AggregationState of `run`: the three global counters and, for the
    `--group` option, the three per-directory group maps. -/
structure AggState where
  totalLines : FreqMap Str
  totalChars : FreqMap Char
  totalRegns : FreqMap Str
  groupLines : GroupMap Str
  groupChars : GroupMap Char
  groupRegns : GroupMap Str
deriving DecidableEq

/-- The state of `run` before the file loop: all counters empty. -/
def initState : AggState := ⟨[], [], [], [], [], []⟩

/-- Lines 196-206 of `run`: for one successfully extracted file, update
    the group counters (when `--group` is set) and the global counters. -/
def updateState (group : Bool) (st : AggState) (dir : Str)
    (l : FreqMap Str) (c : FreqMap Char) (r : FreqMap Str) : AggState :=
  if group then
    { totalLines := counterUpdate st.totalLines l
      totalChars := counterUpdate st.totalChars c
      totalRegns := counterUpdate st.totalRegns r
      groupLines := groupUpdate st.groupLines dir l
      groupChars := groupUpdate st.groupChars dir c
      groupRegns := groupUpdate st.groupRegns dir r }
  else
    { st with
      totalLines := counterUpdate st.totalLines l
      totalChars := counterUpdate st.totalChars c
      totalRegns := counterUpdate st.totalRegns r }

/-- One iteration of the file loop of `run`: parse and extract (any raised
    error aborts before any update), then update the aggregates. -/
def processFile {σ : Type} (P : σ → Except ParseError ExtractTriple) (group : Bool)
    (st : AggState) (f : FileInput σ) : Except ParseError AggState :=
  match P f.source with
  | .error e => .error e
  | .ok (l, c, r) => .ok (updateState group st f.dirname l c r)

/-- The file loop of `run` (lines 193-206): process files in order; a
    raised error stops the run, and the returned state is the aggregate
    visible at that moment. -/
def runTrace {σ : Type} (P : σ → Except ParseError ExtractTriple) (group : Bool)
    (st : AggState) : List (FileInput σ) → AggState × Option ParseError
  | [] => (st, none)
  | f :: rest =>
    match processFile P group st f with
    | .error e => (st, some e)
    | .ok st2 => runTrace P group st2 rest

/-- `Except.isOk` for the parse results (Python: the call returns rather
    than raises). -/
def exceptIsOk {ε α : Type} : Except ε α → Bool
  | .ok _ => true
  | .error _ => false

/-- Python `==` on Counters: same count for every key. -/
def mapEquiv {α : Type} [DecidableEq α] (m m2 : FreqMap α) : Prop :=
  ∀ k, countOf m k = countOf m2 k

/-- Python `==` on the group maps: same counts for every directory. -/
def groupEquiv {α : Type} [DecidableEq α] (g g2 : GroupMap α) : Prop :=
  ∀ dir k, countOf (groupGet g dir) k = countOf (groupGet g2 dir) k

/-- Python `==` on the whole AggregationState. -/
def stateEquiv (s t : AggState) : Prop :=
  mapEquiv s.totalLines t.totalLines ∧ mapEquiv s.totalChars t.totalChars ∧
  mapEquiv s.totalRegns t.totalRegns ∧ groupEquiv s.groupLines t.groupLines ∧
  groupEquiv s.groupChars t.groupChars ∧ groupEquiv s.groupRegns t.groupRegns

/-- Pointwise order on states: no per-key count decreases. -/
def stateLe (s t : AggState) : Prop :=
  (∀ k, countOf s.totalLines k ≤ countOf t.totalLines k) ∧
  (∀ k, countOf s.totalChars k ≤ countOf t.totalChars k) ∧
  (∀ k, countOf s.totalRegns k ≤ countOf t.totalRegns k) ∧
  (∀ dir k, countOf (groupGet s.groupLines dir) k ≤ countOf (groupGet t.groupLines dir) k) ∧
  (∀ dir k, countOf (groupGet s.groupChars dir) k ≤ countOf (groupGet t.groupChars dir) k) ∧
  (∀ dir k, countOf (groupGet s.groupRegns dir) k ≤ countOf (groupGet t.groupRegns dir) k)

/-- All three counters of an extracted triple are zero-free. -/
def triplePos (t : ExtractTriple) : Prop :=
  allPos t.1 ∧ allPos t.2.1 ∧ allPos t.2.2

/-- Every counter in the AggregationState is zero-free. -/
def statePos (s : AggState) : Prop :=
  allPos s.totalLines ∧ allPos s.totalChars ∧ allPos s.totalRegns ∧
  groupPos s.groupLines ∧ groupPos s.groupChars ∧ groupPos s.groupRegns

/-- The label table `Alto4Parser.parse` builds from the tag-declaration
    elements when every one of them carries `ID` and `LABEL`. -/
def Alto4Parser.expectedLabels (ts : List AttrMap) : StrDict :=
  ts.foldl
    (fun m a => dictUpsert m ((dictGet a (str "ID")).getD []) ((dictGet a (str "LABEL")).getD [])) []

/-- An ALTO document declaring `{"T1": "heading"}` with two lines, one
    referencing `T1` and one referencing an unknown identifier. -/
def altoHeadingDoc : RawAltoDoc :=
  ⟨[[(str "ID", str "T1"), (str "LABEL", str "heading")]],
   [some (str "T1"), some (str "TX")], [], []⟩

/-- An ALTO document whose single line has character content `"a b c"`. -/
def altoAbcDoc : RawAltoDoc := ⟨[], [], [str "a b c"], []⟩

/-- An ALTO document with a tag-declaration element that lacks the `ID`
    attribute (well-formed XML, but `parse` raises `KeyError`). -/
def altoNoIdDoc : RawAltoDoc := ⟨[[(str "LABEL", str "x")]], [], [], []⟩

/-- A PAGE document whose single `Unicode` element has text `"a b c"`
    (and lxml object address `0x7f00`). -/
def pageAbcDoc : PageDoc := ⟨[], [⟨str "a b c", str "7f00"⟩], []⟩

/-! ### Lemmas about the Python string primitives -/

theorem pyReplaceAllAux_fuel (p : Char) (ps : Str) :
    ∀ (f1 : Nat) (f2 : Nat) (s : Str), s.length ≤ f1 → s.length ≤ f2 →
      pyReplaceAllAux p ps f1 s = pyReplaceAllAux p ps f2 s := by
  intro f1
  induction f1 with
  | zero =>
    intro f2 s h1 _
    have hs : s = [] := List.eq_nil_of_length_eq_zero (Nat.le_zero.mp h1)
    subst hs
    cases f2 <;> rfl
  | succ f ih =>
    intro f2 s h1 h2
    cases s with
    | nil => cases f2 <;> rfl
    | cons c rest =>
      cases f2 with
      | zero => simp at h2
      | succ f2' =>
        simp only [List.length_cons, Nat.add_le_add_iff_right] at h1 h2
        simp only [pyReplaceAllAux]
        by_cases hp : (p :: ps).isPrefixOf (c :: rest) = true
        · rw [if_pos hp, if_pos hp]
          apply ih
          · simp only [List.length_drop]; omega
          · simp only [List.length_drop]; omega
        · rw [if_neg hp, if_neg hp]
          rw [ih f2' rest h1 h2]

theorem pyReplace_nil_right (p : Char) (ps : Str) : pyReplace (p :: ps) [] = [] := rfl

theorem pyReplace_cons_match (p : Char) (ps : Str) (c : Char) (rest : Str)
    (h : (p :: ps).isPrefixOf (c :: rest) = true) :
    pyReplace (p :: ps) (c :: rest) = pyReplace (p :: ps) (List.drop ps.length rest) := by
  show pyReplaceAllAux p ps (c :: rest).length (c :: rest) = _
  simp only [List.length_cons, pyReplaceAllAux]
  rw [if_pos h]
  apply pyReplaceAllAux_fuel
  · simp only [List.length_drop]; omega
  · exact Nat.le_refl _

theorem pyReplace_cons_nomatch (p : Char) (ps : Str) (c : Char) (rest : Str)
    (h : (p :: ps).isPrefixOf (c :: rest) = false) :
    pyReplace (p :: ps) (c :: rest) = c :: pyReplace (p :: ps) rest := by
  show pyReplaceAllAux p ps (c :: rest).length (c :: rest) = _
  simp only [List.length_cons, pyReplaceAllAux]
  rw [if_neg (by simp [h])]
  rfl

theorem isPrefixOf_self_append (l r : Str) : l.isPrefixOf (l ++ r) = true := by
  induction l with
  | nil => simp [List.isPrefixOf]
  | cons a as ih => simp [List.isPrefixOf, ih]

/-- `replace(pat, "")` leaves a string without any occurrence of `pat`
    unchanged. -/
theorem pyReplace_of_not_occurs (p : Char) (ps : Str) :
    ∀ s : Str, occursIn (p :: ps) s = false → pyReplace (p :: ps) s = s := by
  intro s
  induction s with
  | nil => intro _; rfl
  | cons c rest ih =>
    intro h
    simp only [occursIn, Bool.or_eq_false_iff] at h
    rw [pyReplace_cons_nomatch p ps c rest h.1, ih h.2]

/-- `replace(pat, "")` removes a leading occurrence of `pat` and keeps
    scanning after it. -/
theorem pyReplace_append_self (p : Char) (ps : Str) (rest : Str) :
    pyReplace (p :: ps) ((p :: ps) ++ rest) = pyReplace (p :: ps) rest := by
  rw [List.cons_append]
  rw [pyReplace_cons_match p ps p (ps ++ rest)
    (by rw [← List.cons_append]; exact isPrefixOf_self_append (p :: ps) rest)]
  rw [List.drop_left]

/-- `replace(pat, "")` copies verbatim any leading segment in which no
    occurrence of `pat` starts. -/
theorem pyReplace_append_of_no_match (p : Char) (ps : Str) :
    ∀ (x tail : Str),
      (∀ i, i < x.length → (p :: ps).isPrefixOf (List.drop i (x ++ tail)) = false) →
      pyReplace (p :: ps) (x ++ tail) = x ++ pyReplace (p :: ps) tail := by
  intro x
  induction x with
  | nil => intro tail _; simp
  | cons c x2 ih =>
    intro tail h
    have h0 : (p :: ps).isPrefixOf (c :: (x2 ++ tail)) = false := by
      have := h 0 (by simp)
      simpa using this
    rw [List.cons_append, pyReplace_cons_nomatch p ps c (x2 ++ tail) h0]
    rw [ih tail ?_]
    · rfl
    · intro i hi
      have := h (i + 1) (by simp only [List.length_cons]; omega)
      simpa [List.cons_append] using this

/-! ### Lemmas about the Counter model -/

theorem countOf_addCount {α : Type} [DecidableEq α] (m : FreqMap α) (k k2 : α) (n : Nat) :
    countOf (addCount m k n) k2 = countOf m k2 + (if k = k2 then n else 0) := by
  induction m with
  | nil =>
    simp only [addCount, countOf]
    by_cases h : k = k2 <;> simp [h]
  | cons p rest ih =>
    obtain ⟨k0, c⟩ := p
    simp only [addCount]
    by_cases h : k0 = k
    · subst h
      rw [if_pos rfl]
      simp only [countOf]
      by_cases h2 : k0 = k2
      · rw [if_pos h2, if_pos h2, if_pos h2]
      · rw [if_neg h2, if_neg h2, if_neg h2]
        omega
    · rw [if_neg h]
      simp only [countOf]
      by_cases h2 : k0 = k2
      · rw [if_pos h2, if_pos h2]
        rw [if_neg (fun hk => h (h2.trans hk.symm))]
        omega
      · rw [if_neg h2, if_neg h2, ih]

theorem countOf_counterUpdate {α : Type} [DecidableEq α] :
    ∀ (d m : FreqMap α) (k : α),
      countOf (counterUpdate m d) k = countOf m k + entrySum d k := by
  intro d
  induction d with
  | nil => intro m k; simp [counterUpdate, entrySum]
  | cons p rest ih =>
    intro m k
    obtain ⟨k0, c0⟩ := p
    show countOf (counterUpdate (addCount m k0 c0) rest) k = _
    rw [ih, countOf_addCount]
    simp only [entrySum]
    omega

theorem countOf_counterOf_aux {α : Type} [DecidableEq α] :
    ∀ (l : List α) (m : FreqMap α) (k : α),
      countOf (l.foldl (fun m x => addCount m x 1) m) k = countOf m k + countElem l k := by
  intro l
  induction l with
  | nil => intro m k; simp [countElem]
  | cons x rest ih =>
    intro m k
    simp only [List.foldl_cons]
    rw [ih, countOf_addCount]
    simp only [countElem]
    omega

/-- A Counter of a list stores exactly the occurrence counts. -/
theorem countOf_counterOf {α : Type} [DecidableEq α] (l : List α) (k : α) :
    countOf (counterOf l) k = countElem l k := by
  rw [counterOf, countOf_counterOf_aux]
  simp [countOf]

theorem sumVals_addCount {α : Type} [DecidableEq α] (m : FreqMap α) (k : α) (n : Nat) :
    sumVals (addCount m k n) = sumVals m + n := by
  induction m with
  | nil => simp [addCount, sumVals]
  | cons p rest ih =>
    obtain ⟨k0, c⟩ := p
    simp only [addCount]
    by_cases h : k0 = k
    · rw [if_pos h]
      simp only [sumVals]
      omega
    · rw [if_neg h]
      simp only [sumVals, ih]
      omega

theorem sumVals_counterOf_aux {α : Type} [DecidableEq α] :
    ∀ (l : List α) (m : FreqMap α),
      sumVals (l.foldl (fun m x => addCount m x 1) m) = sumVals m + l.length := by
  intro l
  induction l with
  | nil => intro m; simp
  | cons x rest ih =>
    intro m
    simp only [List.foldl_cons, List.length_cons]
    rw [ih, sumVals_addCount]
    omega

/-- The values of a Counter of a list sum to the list's length. -/
theorem sumVals_counterOf {α : Type} [DecidableEq α] (l : List α) :
    sumVals (counterOf l) = l.length := by
  rw [counterOf, sumVals_counterOf_aux]
  simp [sumVals]

theorem countElem_removeSpaces_space : ∀ s : Str, countElem (removeSpaces s) ' ' = 0 := by
  intro s
  induction s with
  | nil => rfl
  | cons c rest ih =>
    simp only [removeSpaces]
    by_cases h : c = ' '
    · rw [if_pos h]; exact ih
    · rw [if_neg h]
      simp only [countElem, if_neg h]
      omega

theorem allPos_addCount {α : Type} [DecidableEq α] (m : FreqMap α) (k : α) (n : Nat)
    (hm : allPos m) (hn : 0 < n) : allPos (addCount m k n) := by
  induction m with
  | nil =>
    intro p hp
    simp only [addCount, List.mem_singleton] at hp
    subst hp
    exact hn
  | cons q rest ih =>
    obtain ⟨k0, c⟩ := q
    have hrest : allPos rest := fun p hp => hm p (List.mem_cons_of_mem _ hp)
    simp only [addCount]
    by_cases h : k0 = k
    · rw [if_pos h]
      intro p hp
      rcases List.mem_cons.mp hp with h1 | h2
      · subst h1
        have := hm (k0, c) (List.mem_cons_self _ _)
        simp at this ⊢
        omega
      · exact hm p (List.mem_cons_of_mem _ h2)
    · rw [if_neg h]
      intro p hp
      rcases List.mem_cons.mp hp with h1 | h2
      · subst h1
        exact hm (k0, c) (List.mem_cons_self _ _)
      · exact ih hrest p h2

theorem allPos_counterUpdate {α : Type} [DecidableEq α] :
    ∀ (d m : FreqMap α), allPos m → allPos d → allPos (counterUpdate m d) := by
  intro d
  induction d with
  | nil => intro m hm _; exact hm
  | cons p rest ih =>
    intro m hm hd
    obtain ⟨k0, c0⟩ := p
    show allPos (counterUpdate (addCount m k0 c0) rest)
    have hc0 : 0 < c0 := hd (k0, c0) (List.mem_cons_self _ _)
    exact ih _ (allPos_addCount m k0 c0 hm hc0) (fun p hp => hd p (List.mem_cons_of_mem _ hp))

theorem allPos_counterOf_aux {α : Type} [DecidableEq α] :
    ∀ (l : List α) (m : FreqMap α), allPos m → allPos (l.foldl (fun m x => addCount m x 1) m) := by
  intro l
  induction l with
  | nil => intro m hm; exact hm
  | cons x rest ih =>
    intro m hm
    simp only [List.foldl_cons]
    exact ih _ (allPos_addCount m x 1 hm (by omega))

/-- A Counter built from a list never stores a zero count. -/
theorem allPos_counterOf {α : Type} [DecidableEq α] (l : List α) : allPos (counterOf l) := by
  rw [counterOf]
  exact allPos_counterOf_aux l [] (fun p hp => by cases hp)

theorem countOf_groupGet_groupUpdate {α : Type} [DecidableEq α] :
    ∀ (g : GroupMap α) (dir e : Str) (m : FreqMap α) (k : α),
      countOf (groupGet (groupUpdate g dir m) e) k =
        countOf (groupGet g e) k + (if dir = e then entrySum m k else 0) := by
  intro g
  induction g with
  | nil =>
    intro dir e m k
    simp only [groupUpdate, groupGet]
    by_cases h : dir = e
    · rw [if_pos h, if_pos h, countOf_counterUpdate]
    · rw [if_neg h, if_neg h]
      simp [countOf]
  | cons p rest ih =>
    intro dir e m k
    obtain ⟨d0, c0⟩ := p
    simp only [groupUpdate]
    by_cases h1 : d0 = dir
    · rw [if_pos h1]
      simp only [groupGet]
      by_cases h2 : d0 = e
      · rw [if_pos h2, if_pos h2, if_pos (h1.symm.trans h2), countOf_counterUpdate]
      · rw [if_neg h2, if_neg h2, if_neg (fun hde => h2 (h1.trans hde))]
        omega
    · rw [if_neg h1]
      simp only [groupGet]
      by_cases h2 : d0 = e
      · rw [if_pos h2, if_pos h2, if_neg (fun hde => h1 (h2.trans hde.symm))]
        omega
      · rw [if_neg h2, if_neg h2, ih]

theorem groupPos_groupUpdate {α : Type} [DecidableEq α] :
    ∀ (g : GroupMap α) (dir : Str) (m : FreqMap α),
      groupPos g → allPos m → groupPos (groupUpdate g dir m) := by
  intro g
  induction g with
  | nil =>
    intro dir m _ hm p hp
    simp only [groupUpdate, List.mem_singleton] at hp
    subst hp
    exact allPos_counterUpdate m [] (fun q hq => by cases hq) hm
  | cons q rest ih =>
    intro dir m hg hm
    obtain ⟨d0, c0⟩ := q
    have hrest : groupPos rest := fun p hp => hg p (List.mem_cons_of_mem _ hp)
    have hc0 : allPos c0 := hg (d0, c0) (List.mem_cons_self _ _)
    simp only [groupUpdate]
    by_cases h : d0 = dir
    · rw [if_pos h]
      intro p hp
      rcases List.mem_cons.mp hp with h1 | h2
      · subst h1
        exact allPos_counterUpdate m c0 hc0 hm
      · exact hrest p h2
    · rw [if_neg h]
      intro p hp
      rcases List.mem_cons.mp hp with h1 | h2
      · subst h1; exact hc0
      · exact ih dir m hrest hm p h2

/-! ### Lemmas about the aggregation state -/

theorem totalLines_updateState (group : Bool) (st : AggState) (dir : Str)
    (l : FreqMap Str) (c : FreqMap Char) (r : FreqMap Str) :
    (updateState group st dir l c r).totalLines = counterUpdate st.totalLines l := by
  cases group <;> rfl

theorem totalChars_updateState (group : Bool) (st : AggState) (dir : Str)
    (l : FreqMap Str) (c : FreqMap Char) (r : FreqMap Str) :
    (updateState group st dir l c r).totalChars = counterUpdate st.totalChars c := by
  cases group <;> rfl

theorem totalRegns_updateState (group : Bool) (st : AggState) (dir : Str)
    (l : FreqMap Str) (c : FreqMap Char) (r : FreqMap Str) :
    (updateState group st dir l c r).totalRegns = counterUpdate st.totalRegns r := by
  cases group <;> rfl

theorem groupLines_updateState (group : Bool) (st : AggState) (dir : Str)
    (l : FreqMap Str) (c : FreqMap Char) (r : FreqMap Str) :
    (updateState group st dir l c r).groupLines =
      if group then groupUpdate st.groupLines dir l else st.groupLines := by
  cases group <;> rfl

theorem groupChars_updateState (group : Bool) (st : AggState) (dir : Str)
    (l : FreqMap Str) (c : FreqMap Char) (r : FreqMap Str) :
    (updateState group st dir l c r).groupChars =
      if group then groupUpdate st.groupChars dir c else st.groupChars := by
  cases group <;> rfl

theorem groupRegns_updateState (group : Bool) (st : AggState) (dir : Str)
    (l : FreqMap Str) (c : FreqMap Char) (r : FreqMap Str) :
    (updateState group st dir l c r).groupRegns =
      if group then groupUpdate st.groupRegns dir r else st.groupRegns := by
  cases group <;> rfl

theorem stateLe_refl (s : AggState) : stateLe s s :=
  ⟨fun _ => Nat.le_refl _, fun _ => Nat.le_refl _, fun _ => Nat.le_refl _,
   fun _ _ => Nat.le_refl _, fun _ _ => Nat.le_refl _, fun _ _ => Nat.le_refl _⟩

theorem stateLe_trans {s t u : AggState} (h1 : stateLe s t) (h2 : stateLe t u) : stateLe s u :=
  ⟨fun k => Nat.le_trans (h1.1 k) (h2.1 k),
   fun k => Nat.le_trans (h1.2.1 k) (h2.2.1 k),
   fun k => Nat.le_trans (h1.2.2.1 k) (h2.2.2.1 k),
   fun d k => Nat.le_trans (h1.2.2.2.1 d k) (h2.2.2.2.1 d k),
   fun d k => Nat.le_trans (h1.2.2.2.2.1 d k) (h2.2.2.2.2.1 d k),
   fun d k => Nat.le_trans (h1.2.2.2.2.2 d k) (h2.2.2.2.2.2 d k)⟩

theorem stateLe_updateState (group : Bool) (st : AggState) (dir : Str)
    (l : FreqMap Str) (c : FreqMap Char) (r : FreqMap Str) :
    stateLe st (updateState group st dir l c r) := by
  refine ⟨?_, ?_, ?_, ?_, ?_, ?_⟩
  · intro k; rw [totalLines_updateState, countOf_counterUpdate]; omega
  · intro k; rw [totalChars_updateState, countOf_counterUpdate]; omega
  · intro k; rw [totalRegns_updateState, countOf_counterUpdate]; omega
  · intro d k
    rw [groupLines_updateState]
    cases group
    · simp
    · simp [countOf_groupGet_groupUpdate]
  · intro d k
    rw [groupChars_updateState]
    cases group
    · simp
    · simp [countOf_groupGet_groupUpdate]
  · intro d k
    rw [groupRegns_updateState]
    cases group
    · simp
    · simp [countOf_groupGet_groupUpdate]

theorem runTrace_stateLe {σ : Type} (P : σ → Except ParseError ExtractTriple) (group : Bool) :
    ∀ (files : List (FileInput σ)) (st : AggState), stateLe st (runTrace P group st files).1 := by
  intro files
  induction files with
  | nil => intro st; exact stateLe_refl st
  | cons f rest ih =>
    intro st
    simp only [runTrace]
    cases hP : P f.source with
    | error e =>
      simp only [processFile, hP]
      exact stateLe_refl st
    | ok t =>
      obtain ⟨l, c, r⟩ := t
      simp only [processFile, hP]
      exact stateLe_trans (stateLe_updateState group st f.dirname l c r) (ih _)

theorem statePos_updateState (group : Bool) (st : AggState) (dir : Str)
    (l : FreqMap Str) (c : FreqMap Char) (r : FreqMap Str)
    (h : statePos st) (hl : allPos l) (hc : allPos c) (hr : allPos r) :
    statePos (updateState group st dir l c r) := by
  refine ⟨?_, ?_, ?_, ?_, ?_, ?_⟩
  · rw [totalLines_updateState]; exact allPos_counterUpdate l st.totalLines h.1 hl
  · rw [totalChars_updateState]; exact allPos_counterUpdate c st.totalChars h.2.1 hc
  · rw [totalRegns_updateState]; exact allPos_counterUpdate r st.totalRegns h.2.2.1 hr
  · rw [groupLines_updateState]
    cases group
    · simpa using h.2.2.2.1
    · simp only [if_pos rfl]
      exact groupPos_groupUpdate st.groupLines dir l h.2.2.2.1 hl
  · rw [groupChars_updateState]
    cases group
    · simpa using h.2.2.2.2.1
    · simp only [if_pos rfl]
      exact groupPos_groupUpdate st.groupChars dir c h.2.2.2.2.1 hc
  · rw [groupRegns_updateState]
    cases group
    · simpa using h.2.2.2.2.2
    · simp only [if_pos rfl]
      exact groupPos_groupUpdate st.groupRegns dir r h.2.2.2.2.2 hr

theorem runTrace_statePos {σ : Type} (P : σ → Except ParseError ExtractTriple) (group : Bool)
    (hP : ∀ s t, P s = .ok t → triplePos t) :
    ∀ (files : List (FileInput σ)) (st : AggState),
      statePos st → statePos (runTrace P group st files).1 := by
  intro files
  induction files with
  | nil => intro st h; exact h
  | cons f rest ih =>
    intro st h
    simp only [runTrace]
    cases hp : P f.source with
    | error e =>
      simp only [processFile, hp]
      exact h
    | ok t =>
      obtain ⟨l, c, r⟩ := t
      have ht := hP f.source (l, c, r) hp
      simp only [processFile, hp]
      exact ih _ (statePos_updateState group st f.dirname l c r h ht.1 ht.2.1 ht.2.2)

theorem updateState_comm (group : Bool) (st : AggState) (d1 d2 : Str)
    (l1 l2 : FreqMap Str) (c1 c2 : FreqMap Char) (r1 r2 : FreqMap Str) :
    stateEquiv (updateState group (updateState group st d1 l1 c1 r1) d2 l2 c2 r2)
      (updateState group (updateState group st d2 l2 c2 r2) d1 l1 c1 r1) := by
  refine ⟨?_, ?_, ?_, ?_, ?_, ?_⟩
  · intro k
    simp only [totalLines_updateState, countOf_counterUpdate]
    omega
  · intro k
    simp only [totalChars_updateState, countOf_counterUpdate]
    omega
  · intro k
    simp only [totalRegns_updateState, countOf_counterUpdate]
    omega
  · intro d k
    simp only [groupLines_updateState]
    cases group
    · simp
    · simp [countOf_groupGet_groupUpdate]
      omega
  · intro d k
    simp only [groupChars_updateState]
    cases group
    · simp
    · simp [countOf_groupGet_groupUpdate]
      omega
  · intro d k
    simp only [groupRegns_updateState]
    cases group
    · simp
    · simp [countOf_groupGet_groupUpdate]
      omega

/-! ### Lemmas about the run loop and the ALTO parse -/

theorem runTrace_append_of_ok {σ : Type} (P : σ → Except ParseError ExtractTriple) (group : Bool) :
    ∀ (good : List (FileInput σ)) (st : AggState) (tailFiles : List (FileInput σ)),
      (∀ f ∈ good, exceptIsOk (P f.source) = true) →
      runTrace P group st (good ++ tailFiles) =
        runTrace P group (runTrace P group st good).1 tailFiles := by
  intro good
  induction good with
  | nil => intro st tailFiles _; rfl
  | cons f good2 ih =>
    intro st tailFiles h
    have hf : exceptIsOk (P f.source) = true := h f (List.mem_cons_self _ _)
    cases hP : P f.source with
    | error e => rw [hP] at hf; simp [exceptIsOk] at hf
    | ok t =>
      obtain ⟨l, c, r⟩ := t
      simp only [List.cons_append, runTrace, processFile, hP]
      exact ih _ tailFiles (fun g hg => h g (List.mem_cons_of_mem _ hg))

theorem buildLabels_error_keyError :
    ∀ (ts : List AttrMap) (acc : StrDict) (e : ParseError),
      Alto4Parser.buildLabels acc ts = .error e → ∃ k, e = ParseError.keyError k := by
  intro ts
  induction ts with
  | nil => intro acc e h; simp [Alto4Parser.buildLabels] at h
  | cons attrs rest ih =>
    intro acc e h
    simp only [Alto4Parser.buildLabels] at h
    cases h1 : dictGet attrs (str "ID") with
    | none =>
      rw [h1] at h
      simp only [Except.error.injEq] at h
      exact ⟨str "ID", h.symm⟩
    | some i =>
      rw [h1] at h
      cases h2 : dictGet attrs (str "LABEL") with
      | none =>
        rw [h2] at h
        simp only [Except.error.injEq] at h
        exact ⟨str "LABEL", h.symm⟩
      | some l =>
        rw [h2] at h
        exact ih _ e h

theorem buildLabels_ok_of_complete :
    ∀ (ts : List AttrMap) (acc : StrDict),
      (∀ attrs ∈ ts,
        (dictGet attrs (str "ID")).isSome = true ∧ (dictGet attrs (str "LABEL")).isSome = true) →
      Alto4Parser.buildLabels acc ts =
        .ok (ts.foldl
          (fun m a => dictUpsert m ((dictGet a (str "ID")).getD []) ((dictGet a (str "LABEL")).getD []))
          acc) := by
  intro ts
  induction ts with
  | nil => intro acc _; rfl
  | cons attrs rest ih =>
    intro acc h
    have ha := h attrs (List.mem_cons_self _ _)
    simp only [Alto4Parser.buildLabels]
    cases h1 : dictGet attrs (str "ID") with
    | none => rw [h1] at ha; simp at ha
    | some i =>
      cases h2 : dictGet attrs (str "LABEL") with
      | none => rw [h2] at ha; simp at ha
      | some l =>
        simp only [List.foldl_cons, h1, h2, Option.getD_some]
        exact ih _ (fun a hA => h a (List.mem_cons_of_mem _ hA))

/-- Helper for C1: on a value in the expected format — the fixed head
    delimiter, a payload in which neither delimiter occurs (also not
    straddling into the trailing delimiter), and the fixed tail delimiter —
    `_handle_custom_type` returns the payload with surrounding whitespace
    stripped. -/
theorem handle_custom_type_wellformed (t : Str)
    (h1 : occursIn structTypePat (t ++ closeTypePat) = false)
    (h2 : ∀ i, i < t.length → closeTypePat.isPrefixOf (List.drop i (t ++ closeTypePat)) = false) :
    Page2019Parser.handle_custom_type (structTypePat ++ t ++ closeTypePat) = pyStrip t := by
  have hs : structTypePat = 's' :: str "tructure \x7btype:" := by decide
  have hcl : closeTypePat = ';' :: str "\x7d" := by decide
  show pyStrip (pyReplace closeTypePat (pyReplace structTypePat (structTypePat ++ t ++ closeTypePat)))
      = pyStrip t
  rw [List.append_assoc]
  rw [hs] at h1 ⊢
  rw [pyReplace_append_self, pyReplace_of_not_occurs _ _ _ h1]
  rw [hcl] at h2 ⊢
  rw [pyReplace_append_of_no_match ';' (str "\x7d") t (';' :: str "\x7d") h2]
  have hz : pyReplace (';' :: str "\x7d") (';' :: str "\x7d") = [] := by decide
  rw [hz, List.append_nil]

/-- C1: For Dialect B, `get_lines` / `get_regions` label every element by
    `_handle_custom_type` of its `custom` attribute, with the attribute
    defaulting to the literal "Not specified" when absent (which the
    stripping leaves unchanged); a value in the expected
    `structure {type:LABEL ;}` format yields LABEL with surrounding
    whitespace trimmed and no residual delimiters — in particular
    `structure {type:marginalia ;}` yields exactly `marginalia` — and the
    extraction is a total function, never raising. -/
theorem C1_page_custom_label_extraction :
    (∀ doc : PageDoc,
        Page2019Parser.get_lines doc = counterOf (doc.textLines.map Page2019Parser.customLabel) ∧
        Page2019Parser.get_regions doc = counterOf (doc.textRegions.map Page2019Parser.customLabel)) ∧
    Page2019Parser.customLabel none = UNKNOWN_SEGMENT_TYPE ∧
    Page2019Parser.handle_custom_type (str "structure \x7btype:marginalia ;\x7d") = str "marginalia" ∧
    (∀ t : Str,
      occursIn structTypePat (t ++ closeTypePat) = false →
      (∀ i, i < t.length → closeTypePat.isPrefixOf (List.drop i (t ++ closeTypePat)) = false) →
      Page2019Parser.customLabel (some (structTypePat ++ t ++ closeTypePat)) = pyStrip t) := by
  refine ⟨fun doc => ⟨rfl, rfl⟩, by decide, by decide, ?_⟩
  intro t h1 h2
  exact handle_custom_type_wellformed t h1 h2

/-- Witness for C1 at the payload `"marginalia "`. -/
theorem C1_witness :
    Page2019Parser.customLabel (some (structTypePat ++ str "marginalia " ++ closeTypePat))
      = pyStrip (str "marginalia ") :=
  C1_page_custom_label_extraction.2.2.2 (str "marginalia ") (by decide) (by decide)

/-- C10: Dialect B's extraction uses Python `str.replace`, which removes
    every (left-to-right, non-overlapping) occurrence of the two delimiter
    substrings anywhere in the value — not only a leading prefix and a
    trailing suffix — and then trims surrounding whitespace; the absent-
    attribute default "Not specified" is itself passed through this
    stripping function and emerges unchanged. -/
theorem C10_page_custom_label_replace_all :
    (∀ (p : Char) (ps x y : Str),
      (∀ i, i < x.length → (p :: ps).isPrefixOf (List.drop i (x ++ (p :: ps) ++ y)) = false) →
      occursIn (p :: ps) y = false →
      pyReplace (p :: ps) (x ++ (p :: ps) ++ y) = x ++ y) ∧
    Page2019Parser.handle_custom_type (str "a structure \x7btype:b ;\x7d c") = str "a b  c" ∧
    Page2019Parser.customLabel none = Page2019Parser.handle_custom_type UNKNOWN_SEGMENT_TYPE ∧
    Page2019Parser.handle_custom_type UNKNOWN_SEGMENT_TYPE = UNKNOWN_SEGMENT_TYPE ∧
    (∀ v : Str, occursIn structTypePat v = false → occursIn closeTypePat v = false →
      Page2019Parser.handle_custom_type v = pyStrip v) := by
  refine ⟨?_, by decide, rfl, by decide, ?_⟩
  · intro p ps x y hx hy
    rw [List.append_assoc] at hx ⊢
    rw [pyReplace_append_of_no_match p ps x ((p :: ps) ++ y) hx]
    rw [pyReplace_append_self, pyReplace_of_not_occurs p ps y hy]
  · intro v h1 h2
    have hs : structTypePat = 's' :: str "tructure \x7btype:" := by decide
    have hcl : closeTypePat = ';' :: str "\x7d" := by decide
    show pyStrip (pyReplace closeTypePat (pyReplace structTypePat v)) = pyStrip v
    rw [hs] at h1 ⊢
    rw [hcl] at h2 ⊢
    rw [pyReplace_of_not_occurs _ _ _ h1, pyReplace_of_not_occurs _ _ _ h2]

/-- Witness for C10: a mid-string occurrence of the trailing delimiter is
    removed even though it is neither a prefix nor a suffix. -/
theorem C10_witness :
    pyReplace (';' :: str "\x7d") (str "ab " ++ (';' :: str "\x7d") ++ str "cd")
      = str "ab " ++ str "cd" :=
  C10_page_custom_label_replace_all.1 ';' (str "\x7d") (str "ab ") (str "cd")
    (by decide) (by decide)

/-- C2: For Dialect A, every line/region element's type is resolved by
    looking up its `TAGREFS` attribute in the label table; a missing
    attribute falls back to the sentinel key `"####"`, and when that
    sentinel is itself absent from the table the label degrades to
    "Not specified"; resolution is a total function, never raising.  On a
    document declaring `{"T1": "heading"}` with two lines referencing `T1`
    and an unknown identifier, `get_lines` returns
    `{"heading": 1, "Not specified": 1}`. -/
theorem C2_alto_label_resolution :
    (∀ (labels : StrDict) (r l : Str), dictGet labels r = some l →
      Alto4Parser.resolveLabel labels (some r) = l) ∧
    (∀ (labels : StrDict) (r : Str), dictGet labels r = none →
      Alto4Parser.resolveLabel labels (some r) = UNKNOWN_SEGMENT_TYPE) ∧
    (∀ labels : StrDict, dictGet labels (str "####") = none →
      Alto4Parser.resolveLabel labels none = UNKNOWN_SEGMENT_TYPE) ∧
    (∀ (labels : StrDict) (l : Str), dictGet labels (str "####") = some l →
      Alto4Parser.resolveLabel labels none = l) ∧
    (∀ (labels : StrDict) (doc : RawAltoDoc),
      Alto4Parser.get_lines labels doc =
        counterOf (doc.textLines.map (Alto4Parser.resolveLabel labels)) ∧
      Alto4Parser.get_regions labels doc =
        counterOf (doc.textBlocks.map (Alto4Parser.resolveLabel labels))) ∧
    Alto4Parser.parseExtract (fun s => s) (some altoHeadingDoc) =
      .ok ([(str "heading", 1), (str "Not specified", 1)], [], []) := by
  refine ⟨?_, ?_, ?_, ?_, fun labels doc => ⟨rfl, rfl⟩, by decide⟩
  · intro labels r l h
    simp [Alto4Parser.resolveLabel, h]
  · intro labels r h
    simp [Alto4Parser.resolveLabel, h]
  · intro labels h
    simp [Alto4Parser.resolveLabel, h]
  · intro labels l h
    simp [Alto4Parser.resolveLabel, h]

/-- Witness for C2: a declared identifier resolves to its declared label. -/
theorem C2_witness :
    Alto4Parser.resolveLabel [(str "T1", str "heading")] (some (str "T1")) = str "heading" :=
  C2_alto_label_resolution.1 [(str "T1", str "heading")] (str "T1") (str "heading") (by decide)

/-- C3 (evidence): for Dialect A, `get_chars` counts the characters of the
    concatenated normalized `@CONTENT` strings with every space removed,
    so `"a b c"` contributes exactly a:1, b:1, c:1 and the space character
    is never a key; but for Dialect B, `get_chars` applies `str()` to lxml
    *elements* (the result of `findall`), so it counts the characters of
    element reprs such as `<Element {ns}Unicode at 0x7f00>` instead of the
    text `"a b c"` — e.g. the character `<` gets count 1. -/
theorem C3_get_chars_space_free_and_page_divergence :
    (∀ (nrm : Str → Str) (doc : RawAltoDoc), countOf (Alto4Parser.get_chars nrm doc) ' ' = 0) ∧
    (∀ (nrm : Str → Str) (doc : PageDoc), countOf (Page2019Parser.get_chars nrm doc) ' ' = 0) ∧
    Alto4Parser.get_chars (fun s => s) altoAbcDoc = [('a', 1), ('b', 1), ('c', 1)] ∧
    Page2019Parser.get_chars (fun s => s) pageAbcDoc ≠ counterOf (str "abc") ∧
    countOf (Page2019Parser.get_chars (fun s => s) pageAbcDoc) '<' = 1 := by
  refine ⟨?_, ?_, by decide, by decide, by decide⟩
  · intro nrm doc
    show countOf (counterOf (removeSpaces _)) ' ' = 0
    rw [countOf_counterOf, countElem_removeSpaces_space]
  · intro nrm doc
    show countOf (counterOf (removeSpaces _)) ' ' = 0
    rw [countOf_counterOf, countElem_removeSpaces_space]

/-- Counterexample for C4: a well-formed XML file (a parsed document
    exists) on which `Alto4Parser.parse` nevertheless fails — its
    tag-declaration element lacks the `ID` attribute, so the label-table
    comprehension raises `KeyError("ID")`, a failure mode beyond
    `MalformedDocument`. -/
theorem C4_counterexample :
    Alto4Parser.parse (some altoNoIdDoc) = .error (ParseError.keyError (str "ID")) := by
  decide

/-- C4 (amended): `parse` fails with `MalformedDocument` exactly on files
    that are not well-formed XML; on well-formed files every failure is a
    `KeyError` for a tag-declaration element missing `ID` or `LABEL`; and
    on well-formed files whose tag-declaration elements all carry both
    attributes it succeeds, building the (identifier -> label) table. -/
theorem C4_alto_parse_failure_modes :
    Alto4Parser.parse none = .error ParseError.malformedDocument ∧
    (∀ (raw : RawAltoDoc) (e : ParseError), Alto4Parser.parse (some raw) = .error e →
      ∃ k, e = ParseError.keyError k) ∧
    (∀ raw : RawAltoDoc,
      (∀ attrs ∈ raw.otherTags,
        (dictGet attrs (str "ID")).isSome = true ∧ (dictGet attrs (str "LABEL")).isSome = true) →
      Alto4Parser.parse (some raw) = .ok (Alto4Parser.expectedLabels raw.otherTags, raw)) := by
  refine ⟨rfl, ?_, ?_⟩
  · intro raw e h
    cases hb : Alto4Parser.buildLabels [] raw.otherTags with
    | error e2 =>
      simp only [Alto4Parser.parse, hb, Except.error.injEq] at h
      subst h
      exact buildLabels_error_keyError raw.otherTags [] e2 hb
    | ok L =>
      simp only [Alto4Parser.parse, hb] at h
      exact Except.noConfusion h
  · intro raw hc
    simp only [Alto4Parser.parse]
    rw [buildLabels_ok_of_complete raw.otherTags [] hc]
    rfl

/-- Witness for C4: on a document whose declarations are complete,
    `parse` succeeds with the expected table. -/
theorem C4_witness :
    Alto4Parser.parse (some altoHeadingDoc) =
      .ok (Alto4Parser.expectedLabels altoHeadingDoc.otherTags, altoHeadingDoc) :=
  C4_alto_parse_failure_modes.2.2 altoHeadingDoc (by decide)

/-- C5: Per-file aggregation is atomic.  If every file of a prefix parses
    and the next file fails, the run stops with that error and the
    aggregation state visible at the failure equals the state after the
    last successfully processed file: nothing of the failing file (whose
    extraction is never reached, the parse raising first) and nothing of
    the remaining files enters the aggregates. -/
theorem C5_run_atomic_on_parse_failure :
    ∀ (σ : Type) (P : σ → Except ParseError ExtractTriple) (group : Bool) (st : AggState)
      (good : List (FileInput σ)) (bad : FileInput σ) (rest : List (FileInput σ))
      (e : ParseError),
      (∀ f ∈ good, exceptIsOk (P f.source) = true) →
      P bad.source = .error e →
      runTrace P group st (good ++ bad :: rest) = ((runTrace P group st good).1, some e) := by
  intro σ P group st good bad rest e hgood hbad
  rw [runTrace_append_of_ok P group good st (bad :: rest) hgood]
  simp only [runTrace, processFile, hbad]

/-- Witness for C5: one good ALTO file, then a malformed file, then
    another good file. -/
theorem C5_witness :
    runTrace (Alto4Parser.parseExtract (fun s => s)) true initState
        [⟨str "d", some altoHeadingDoc⟩, ⟨str "d", none⟩, ⟨str "d", some altoAbcDoc⟩] =
      ((runTrace (Alto4Parser.parseExtract (fun s => s)) true initState
          [⟨str "d", some altoHeadingDoc⟩]).1, some ParseError.malformedDocument) :=
  C5_run_atomic_on_parse_failure (Option RawAltoDoc) (Alto4Parser.parseExtract (fun s => s))
    true initState [⟨str "d", some altoHeadingDoc⟩] ⟨str "d", none⟩
    [⟨str "d", some altoAbcDoc⟩] ParseError.malformedDocument (by decide) (by decide)

/-- C6: For both dialects the values of the FrequencyMap returned by
    `get_lines` sum to the number of line elements of the file; a file with
    no line elements yields the empty FrequencyMap (a valid result, not an
    error), and updating the aggregation state with empty maps leaves every
    count of the state unchanged. -/
theorem C6_get_lines_sum_and_empty :
    (∀ (labels : StrDict) (doc : RawAltoDoc),
      sumVals (Alto4Parser.get_lines labels doc) = doc.textLines.length) ∧
    (∀ doc : PageDoc, sumVals (Page2019Parser.get_lines doc) = doc.textLines.length) ∧
    (∀ (labels : StrDict) (ot : List AttrMap) (cs : List Str) (bs : List (Option Str)),
      Alto4Parser.get_lines labels ⟨ot, [], cs, bs⟩ = []) ∧
    (∀ (ue : List PageUnicodeElem) (rs : List (Option Str)),
      Page2019Parser.get_lines ⟨[], ue, rs⟩ = []) ∧
    (∀ (group : Bool) (st : AggState) (dir : Str),
      stateEquiv (updateState group st dir [] [] []) st) := by
  refine ⟨?_, ?_, fun _ _ _ _ => rfl, fun _ _ => rfl, ?_⟩
  · intro labels doc
    show sumVals (counterOf _) = _
    rw [sumVals_counterOf, List.length_map]
  · intro doc
    show sumVals (counterOf _) = _
    rw [sumVals_counterOf, List.length_map]
  · intro group st dir
    refine ⟨?_, ?_, ?_, ?_, ?_, ?_⟩
    · intro k; rw [totalLines_updateState]; rfl
    · intro k; rw [totalChars_updateState]; rfl
    · intro k; rw [totalRegns_updateState]; rfl
    · intro d k
      rw [groupLines_updateState]
      cases group
      · simp
      · simp [countOf_groupGet_groupUpdate, entrySum]
    · intro d k
      rw [groupChars_updateState]
      cases group
      · simp
      · simp [countOf_groupGet_groupUpdate, entrySum]
    · intro d k
      rw [groupRegns_updateState]
      cases group
      · simp
      · simp [countOf_groupGet_groupUpdate, entrySum]

/-- C7: Aggregation is order-independent: for two files that both parse,
    processing `[A, B]` and `[B, A]` succeeds and produces the same final
    AggregationState (equality of every global and per-directory count,
    which is Python `==` on Counters and dicts). -/
theorem C7_run_order_independent :
    ∀ (σ : Type) (P : σ → Except ParseError ExtractTriple) (group : Bool) (st : AggState)
      (A B : FileInput σ) (tA tB : ExtractTriple),
      P A.source = .ok tA → P B.source = .ok tB →
      stateEquiv (runTrace P group st [A, B]).1 (runTrace P group st [B, A]).1 ∧
      (runTrace P group st [A, B]).2 = none ∧ (runTrace P group st [B, A]).2 = none := by
  intro σ P group st A B tA tB hA hB
  obtain ⟨lA, cA, rA⟩ := tA
  obtain ⟨lB, cB, rB⟩ := tB
  simp only [runTrace, processFile, hA, hB]
  exact ⟨updateState_comm group st A.dirname B.dirname lA lB cA cB rA rB, trivial, trivial⟩

/-- Witness for C7: two concrete ALTO files in two directories, processed
    in both orders. -/
theorem C7_witness :
    stateEquiv
      (runTrace (Alto4Parser.parseExtract (fun s => s)) true initState
        [⟨str "d1", some altoHeadingDoc⟩, ⟨str "d2", some altoAbcDoc⟩]).1
      (runTrace (Alto4Parser.parseExtract (fun s => s)) true initState
        [⟨str "d2", some altoAbcDoc⟩, ⟨str "d1", some altoHeadingDoc⟩]).1 :=
  (C7_run_order_independent (Option RawAltoDoc) (Alto4Parser.parseExtract (fun s => s))
    true initState ⟨str "d1", some altoHeadingDoc⟩ ⟨str "d2", some altoAbcDoc⟩
    ([(str "heading", 1), (str "Not specified", 1)], [], [])
    ([], [('a', 1), ('b', 1), ('c', 1)], [])
    (by decide) (by decide)).1

/-- C8: Every FrequencyMap the system produces is zero-free — each triple
    a parser extracts stores only strictly positive counts, and the
    aggregation preserves this — and the run only ever adds: after
    processing any further list of files, no per-key count of the
    AggregationState (global or per-directory) has decreased. -/
theorem C8_freqmap_invariants :
    (∀ (nrm : Str → Str) (src : Option RawAltoDoc) (t : ExtractTriple),
      Alto4Parser.parseExtract nrm src = .ok t → triplePos t) ∧
    (∀ (nrm : Str → Str) (src : Option PageDoc) (t : ExtractTriple),
      Page2019Parser.parseExtract nrm src = .ok t → triplePos t) ∧
    (∀ (σ : Type) (P : σ → Except ParseError ExtractTriple) (group : Bool)
      (st : AggState) (files : List (FileInput σ)),
      (∀ s t, P s = .ok t → triplePos t) → statePos st →
      statePos (runTrace P group st files).1) ∧
    (∀ (σ : Type) (P : σ → Except ParseError ExtractTriple) (group : Bool)
      (st : AggState) (files : List (FileInput σ)),
      stateLe st (runTrace P group st files).1) := by
  refine ⟨?_, ?_, ?_, ?_⟩
  · intro nrm src t h
    cases src with
    | none => simp [Alto4Parser.parseExtract, Alto4Parser.parse] at h
    | some raw =>
      cases hb : Alto4Parser.buildLabels [] raw.otherTags with
      | error e => simp [Alto4Parser.parseExtract, Alto4Parser.parse, hb] at h
      | ok L =>
        simp only [Alto4Parser.parseExtract, Alto4Parser.parse, hb, Except.ok.injEq] at h
        subst h
        exact ⟨allPos_counterOf _, allPos_counterOf _, allPos_counterOf _⟩
  · intro nrm src t h
    cases src with
    | none => simp [Page2019Parser.parseExtract] at h
    | some doc =>
      simp only [Page2019Parser.parseExtract, Except.ok.injEq] at h
      subst h
      exact ⟨allPos_counterOf _, allPos_counterOf _, allPos_counterOf _⟩
  · intro σ P group st files hP hst
    exact runTrace_statePos P group hP files st hst
  · intro σ P group st files
    exact runTrace_stateLe P group files st

/-- Witness for C8: the state after one concrete ALTO file is zero-free. -/
theorem C8_witness :
    statePos (runTrace (Alto4Parser.parseExtract (fun s => s)) true initState
      [⟨str "d", some altoHeadingDoc⟩]).1 := by
  apply C8_freqmap_invariants.2.2.1
  · intro s t h
    exact C8_freqmap_invariants.1 (fun s => s) s t h
  · simp [statePos, allPos, groupPos, initState]

/-- C9: The Normalization Filter is a pure (stateless) function of the
    selector and the input string; for each of the four canonical Unicode
    forms it is idempotent (this reduces to the Unicode-standard contract
    of the external normalization library, under which the repository's
    `Parser.normalize` merely dispatches), and with no selector configured
    it is the identity. -/
theorem C9_normalize_idempotent :
    (∀ (impl : NormForm → UnicodeNormalization) (sel : Option NormForm) (s : Str),
      Parser.normalize impl sel (Parser.normalize impl sel s) = Parser.normalize impl sel s) ∧
    (∀ (impl : NormForm → UnicodeNormalization) (s : Str), Parser.normalize impl none s = s) := by
  refine ⟨?_, fun impl s => rfl⟩
  intro impl sel s
  cases sel with
  | none => rfl
  | some form => exact (impl form).idem s

/-- Witness for C9 at the identity implementation of the contract. -/
theorem C9_witness :
    Parser.normalize (fun _ => idNormalization) (some NormForm.NFC)
        (Parser.normalize (fun _ => idNormalization) (some NormForm.NFC) (str "e"))
      = Parser.normalize (fun _ => idNormalization) (some NormForm.NFC) (str "e") :=
  C9_normalize_idempotent.1 (fun _ => idNormalization) (some NormForm.NFC) (str "e")
